import Mathlib

/-!
Verification of the Isola game engine (`src/isola.hpp`).

The source is a single C++ header: a `Board` of `std::string` cells
(`"+"` empty, `"A"` burned, `"B"`/`"W"` the two players), a `Player`
record (avitar string plus `int` row/col), and an `Isola` game class
with the turn loop (`play`), move application (`attemptMove`), arrow
placement (`fireArrow`) and the legal-move check (`checkHasValidMove`).

The embedding below translates that code shallowly:

* the cell grid `std::vector<std::vector<std::string>>` becomes
  `List (List String)`;
* `int` coordinates become `Int`;
* the unchecked vector read `m_board[row][col]` in `Board::getCell`
  becomes a partial lookup returning `Option String`: `none` exactly when
  the indices fall outside the stored grid — a marker for the case the
  C++ access leaves undefined, not an error path of the program, which
  has none;
* the interactive retry loops in `move` and `fireArrow` are modelled by
  their per-attempt bodies (`attemptMove`, `fireArrowAt`); a rejected
  attempt returns `false` with the state unchanged, matching the code,
  which re-prompts without mutating anything;
* one iteration of the `while (checkHasValidMove(...))` loop in `play`
  (a successful move, then a successful arrow, then the pointer swap of
  the active player) is `turnCycle`.
-/

namespace Isola

/-- The eight compass directions of the `Direction` enum (numeric-keypad
values 1,2,3,4,6,7,8,9 in the source; the numeral is irrelevant here). -/
inductive Direction
  | downLeft
  | down
  | downRight
  | left
  | right
  | upLeft
  | up
  | upRight
  deriving DecidableEq, Repr

/-- The `(row delta, col delta)` applied by the `switch` in
`Isola::attemptMove` (lines 183-212): `Up` decrements the row, `Down`
increments it, `Left`/`Right` adjust the column, diagonals both. -/
def Direction.delta : Direction → Int × Int
  | .up => (-1, 0)
  | .down => (1, 0)
  | .left => (0, -1)
  | .right => (0, 1)
  | .upLeft => (-1, -1)
  | .upRight => (-1, 1)
  | .downLeft => (1, -1)
  | .downRight => (1, 1)

/-- `constexpr const char *EMPTY_SPOT = "+";` -/
def EMPTY_SPOT : String := "+"

/-- `constexpr const char *DEAD_CELL = "A";` -/
def DEAD_CELL : String := "A"

/-- `struct Player`: avitar symbol and current `int` coordinates. -/
structure Player where
  avitar : String
  row : Int
  col : Int
  deriving DecidableEq, Repr

/-- `class Board`: stored row and column counts plus the cell grid.
The constructor takes `int` sizes; the game only ever builds a 7×7
board, so the sizes are modelled as `Nat`. -/
structure Board where
  m_rows : Nat
  m_cols : Nat
  grid : List (List String)
  deriving DecidableEq, Repr

/-- The `Board(rows, cols)` constructor: a `rows × cols` grid all
`EMPTY_SPOT`. -/
def mkBoard (rows cols : Nat) : Board :=
  ⟨rows, cols, List.replicate rows (List.replicate cols EMPTY_SPOT)⟩

/-- `int rows() const { return m_rows; }` -/
def Board.rows (b : Board) : Nat := b.m_rows

/-- `int cols() const { return m_rows; }` — the source returns the row
count, not the column count (line 100 of `isola.hpp`). -/
def Board.cols (b : Board) : Nat := b.m_rows

/-- `Board::getCell(row, col)` is the unchecked read
`m_board[row][col]`: the source has no bounds check and no error path,
so an out-of-range access is undefined behaviour.  The embedding is the
partial lookup: `some` of the stored string when both indices are
inside the grid, and `none` as a marker for the out-of-range case,
where the source leaves the result undefined — `none` does not model an
error the program reports.  Every read the game itself performs is
pre-validated in-bounds, where the embedding matches the source
exactly. -/
def Board.getCell (b : Board) (row col : Int) : Option String :=
  if row < 0 ∨ col < 0 then none
  else (b.grid[row.toNat]?).bind fun rw => rw[col.toNat]?

/-- `Board::setCell(row, col, symbol)` is the unchecked write
`m_board[row][col] = symbol`.  Every call in the game is made with
pre-validated in-bounds coordinates; on such coordinates the embedding
overwrites exactly that cell. -/
def Board.setCell (b : Board) (row col : Int) (s : String) : Board :=
  { b with
    grid := b.grid.set row.toNat ((b.grid.getD row.toNat []).set col.toNat s) }

/-- The full game state of `class Isola`: the two players, the board and
which of them `activePlayer` points at (`true` = `p1`). -/
structure Game where
  p1 : Player
  p2 : Player
  board : Board
  activeIsP1 : Bool
  deriving DecidableEq, Repr

/-- The `Isola()` constructor: `p1 = {"B", 0, 3}`, `p2 = {"W", 6, 3}`,
a 7×7 board with the two starting cells set to the avitars, and
`activePlayer = &p1`. -/
def initGame : Game :=
  let p1 : Player := ⟨"B", 0, 3⟩
  let p2 : Player := ⟨"W", 6, 3⟩
  let b := ((mkBoard 7 7).setCell p1.row p1.col p1.avitar).setCell
    p2.row p2.col p2.avitar
  ⟨p1, p2, b, true⟩

/-- The player the `Player *p` argument designates (`true` = `&p1`). -/
def Game.playerOf (g : Game) (who : Bool) : Player :=
  if who then g.p1 else g.p2

/-- Writing back through the `Player *p` pointer. -/
def Game.setPlayer (g : Game) (who : Bool) (p : Player) : Game :=
  if who then { g with p1 := p } else { g with p2 := p }

/-- The candidate cell of `attemptMove`: the player's position plus the
direction's delta. -/
def Game.moveTarget (g : Game) (who : Bool) (d : Direction) : Int × Int :=
  ((g.playerOf who).row + d.delta.1, (g.playerOf who).col + d.delta.2)

/-- The three rejection messages of `attemptMove` and its success case,
in the order the source checks them (lines 216-230). -/
inductive MoveOutcome
  | outOfBounds
  | burned
  | occupied
  | ok
  deriving DecidableEq, Repr

/-- The validation chain of `Isola::attemptMove` (lines 216-227): first
the bounds test against `rows() - 1` and `cols() - 1`, then the
`DEAD_CELL` test, then the comparison against both players' avitars. -/
def Game.moveOutcome (g : Game) (who : Bool) (d : Direction) : MoveOutcome :=
  let row := (g.moveTarget who d).1
  let col := (g.moveTarget who d).2
  if row < 0 ∨ row > (g.board.rows : Int) - 1 ∨ col < 0 ∨
      col > (g.board.cols : Int) - 1 then
    .outOfBounds
  else if g.board.getCell row col = some DEAD_CELL then
    .burned
  else if g.board.getCell row col = some g.p1.avitar ∨
      g.board.getCell row col = some g.p2.avitar then
    .occupied
  else
    .ok

/-- One attempt of `Isola::attemptMove(p, direction)`: on success the
vacated cell is set to `DEAD_CELL`, the player's coordinates are
updated, and the new cell is set to the avitar (lines 232-235); on any
rejection the state is returned untouched and `false` is reported. -/
def Game.attemptMove (g : Game) (who : Bool) (d : Direction) : Bool × Game :=
  let row := (g.moveTarget who d).1
  let col := (g.moveTarget who d).2
  match g.moveOutcome who d with
  | .ok =>
    let p := g.playerOf who
    let b1 := g.board.setCell p.row p.col DEAD_CELL
    let p' : Player := ⟨p.avitar, row, col⟩
    let b2 := b1.setCell row col p.avitar
    (true, { g.setPlayer who p' with board := b2 })
  | _ => (false, g)

/-- One attempt of `Isola::fireArrow`'s target selection, with the
caller's 1-based row and column converted to 0-based (lines 264, 281).
The two inner input loops reject out-of-range coordinates (lines 266,
283); the outer loop rejects a non-`EMPTY_SPOT` target (line 288-292);
otherwise the target is set to `DEAD_CELL` (line 294).  Rejection
leaves the state untouched. -/
def Game.fireArrowAt (g : Game) (inRow inCol : Int) : Bool × Game :=
  let row := inRow - 1
  let col := inCol - 1
  if row < 0 ∨ row > (g.board.rows : Int) - 1 ∨ col < 0 ∨
      col > (g.board.cols : Int) - 1 then
    (false, g)
  else if ¬ (g.board.getCell row col = some EMPTY_SPOT) then
    (false, g)
  else
    (true, { g with board := g.board.setCell row col DEAD_CELL })

/-- `Isola::checkHasValidMove(p)` (lines 299-332): the if-else chain
over the eight neighbours, each guard exactly as in the source (note
that the column bound is tested against `cols()`, which returns the row
count). -/
def Game.checkHasValidMove (g : Game) (who : Bool) : Bool :=
  let row := (g.playerOf who).row
  let col := (g.playerOf who).col
  if row - 1 ≥ 0 ∧ col - 1 ≥ 0 ∧
      g.board.getCell (row - 1) (col - 1) = some EMPTY_SPOT then true
  else if row - 1 ≥ 0 ∧ g.board.getCell (row - 1) col = some EMPTY_SPOT then
    true
  else if row - 1 ≥ 0 ∧ col + 1 < (g.board.cols : Int) ∧
      g.board.getCell (row - 1) (col + 1) = some EMPTY_SPOT then true
  else if col - 1 ≥ 0 ∧ g.board.getCell row (col - 1) = some EMPTY_SPOT then
    true
  else if col + 1 < (g.board.cols : Int) ∧
      g.board.getCell row (col + 1) = some EMPTY_SPOT then true
  else if row + 1 < (g.board.rows : Int) ∧ col - 1 ≥ 0 ∧
      g.board.getCell (row + 1) (col - 1) = some EMPTY_SPOT then true
  else if row + 1 < (g.board.rows : Int) ∧
      g.board.getCell (row + 1) col = some EMPTY_SPOT then true
  else if row + 1 < (g.board.rows : Int) ∧ col + 1 < (g.board.cols : Int) ∧
      g.board.getCell (row + 1) (col + 1) = some EMPTY_SPOT then true
  else false

/-- The pointer swap ending each loop iteration of `Isola::play`:
`activePlayer = activePlayer == &p1 ? &p2 : &p1;`. -/
def Game.flipActive (g : Game) : Game :=
  { g with activeIsP1 := !g.activeIsP1 }

/-- One completed iteration of the `while (checkHasValidMove(activePlayer))`
loop of `Isola::play`: the guard holds, the (final, successful) move
attempt is `d`, the (final, successful) arrow target is `(inRow, inCol)`
(1-based), and the active player is swapped.  `none` when the guard
fails or either attempt is rejected. -/
def Game.turnCycle (g : Game) (d : Direction) (inRow inCol : Int) :
    Option Game :=
  if g.checkHasValidMove g.activeIsP1 then
    let m := g.attemptMove g.activeIsP1 d
    if m.1 then
      let a := m.2.fireArrowAt inRow inCol
      if a.1 then some a.2.flipActive else none
    else none
  else none

/-- A run of completed turns of the `play` loop. -/
def Game.turnSeq (g : Game) : List (Direction × Int × Int) → Option Game
  | [] => some g
  | (d, r, c) :: rest =>
    match g.turnCycle d r c with
    | some g1 => g1.turnSeq rest
    | none => none

/-- Number of `EMPTY_SPOT` cells in one row. -/
def rowEmptyCount (rw : List String) : Nat :=
  rw.countP fun z => z == EMPTY_SPOT

/-- Number of `EMPTY_SPOT` cells on the board. -/
def Board.countEmpty (b : Board) : Nat :=
  (b.grid.map rowEmptyCount).sum

/-- The states reachable from the initial game by successful moves and
successful arrow placements (in any order, by either player: this is a
superset of what the strict turn loop produces, so invariants proved
over it cover the loop). -/
inductive Reachable : Game → Prop
  | init : Reachable initGame
  | move (g : Game) (who : Bool) (d : Direction) (g' : Game) :
      Reachable g → g.attemptMove who d = (true, g') → Reachable g'
  | arrow (g : Game) (r c : Int) (g' : Game) :
      Reachable g → g.fireArrowAt r c = (true, g') → Reachable g'

/-- The stored content of cell `(i, j)` (total form, for stating lemmas
about in-bounds accesses). -/
def Board.cell (b : Board) (i j : Nat) : String :=
  (b.grid.getD i []).getD j ""

/-- The grid really has the stored dimensions: `m_rows` rows, each of
length `m_cols`. -/
def Board.WFdim (b : Board) : Prop :=
  b.grid.length = b.m_rows ∧
    ∀ i : Nat, i < b.m_rows → (b.grid.getD i []).length = b.m_cols

/-- Well-formedness of the game's board: the dimensions are the
constructed 7×7 and the grid really is 7 rows of length 7. -/
def Board.WFb (b : Board) : Prop :=
  b.m_rows = 7 ∧ b.m_cols = 7 ∧ b.WFdim

/-- The state invariant (claim C6): well-formed board, the fixed
avitars, each player's stored position holding that player's symbol,
distinct positions, and every other cell empty or burned. -/
def Game.Inv (g : Game) : Prop :=
  g.board.WFb ∧
  g.p1.avitar = "B" ∧ g.p2.avitar = "W" ∧
  g.board.getCell g.p1.row g.p1.col = some "B" ∧
  g.board.getCell g.p2.row g.p2.col = some "W" ∧
  (g.p1.row, g.p1.col) ≠ (g.p2.row, g.p2.col) ∧
  ∀ r c s, g.board.getCell r c = some s →
    (r, c) ≠ (g.p1.row, g.p1.col) → (r, c) ≠ (g.p2.row, g.p2.col) →
    s = EMPTY_SPOT ∨ s = DEAD_CELL

theorem Board.setCell_m_rows (b : Board) (r c : Int) (s : String) :
    (b.setCell r c s).m_rows = b.m_rows := rfl

theorem Board.setCell_m_cols (b : Board) (r c : Int) (s : String) :
    (b.setCell r c s).m_cols = b.m_cols := rfl

theorem Board.getCell_def (b : Board) (r c : Int) :
    b.getCell r c = if r < 0 ∨ c < 0 then none
      else (b.grid[r.toNat]?).bind fun rw => rw[c.toNat]? := rfl

theorem Board.grid_setCell (b : Board) (r c : Int) (s : String) :
    (b.setCell r c s).grid =
      b.grid.set r.toNat ((b.grid.getD r.toNat []).set c.toNat s) := rfl

theorem Board.getD_grid_eq (b : Board) (i : Nat) (hi : i < b.grid.length) :
    b.grid[i]? = some (b.grid.getD i []) := by
  rw [List.getD_eq_getElem?_getD, List.getElem?_eq_getElem hi]
  rfl

theorem Board.getCell_eq_none_iff (b : Board) (wf : b.WFdim) (r c : Int) :
    b.getCell r c = none ↔
      r < 0 ∨ (b.m_rows : Int) ≤ r ∨ c < 0 ∨ (b.m_cols : Int) ≤ c := by
  unfold Board.getCell
  by_cases hneg : r < 0 ∨ c < 0
  · simp only [if_pos hneg, true_iff]
    omega
  · rw [if_neg hneg]
    push_neg at hneg
    cases hrow : b.grid[r.toNat]? with
    | none =>
      have hlen : b.grid.length ≤ r.toNat := List.getElem?_eq_none_iff.mp hrow
      rw [wf.1] at hlen
      simp only [Option.none_bind, true_iff]
      omega
    | some rw' =>
      have hlen' : b.grid.length = b.m_rows := wf.1
      have hlt : r.toNat < b.grid.length :=
        (List.getElem?_eq_some_iff.mp hrow).1
      have hrw : rw' = b.grid.getD r.toNat [] := by
        rw [b.getD_grid_eq r.toNat hlt] at hrow
        exact (Option.some.injEq _ _ ▸ hrow).symm
      have hrlen : rw'.length = b.m_cols := by
        rw [hrw]
        exact wf.2 r.toNat (by omega)
      rw [wf.1] at hlt
      obtain ⟨hr0, hc0⟩ := hneg
      simp only [Option.some_bind]
      constructor
      · intro h
        have h2 := List.getElem?_eq_none_iff.mp h
        right; right; right
        omega
      · intro h
        refine List.getElem?_eq_none ?_
        rcases h with h | h | h | h <;> omega

theorem Board.getCell_eq_some (b : Board) (wf : b.WFdim) (r c : Int)
    (hr0 : 0 ≤ r) (hr : r < (b.m_rows : Int)) (hc0 : 0 ≤ c)
    (hc : c < (b.m_cols : Int)) :
    b.getCell r c = some (b.cell r.toNat c.toNat) := by
  unfold Board.getCell Board.cell
  rw [if_neg (by omega)]
  have hrlen : r.toNat < b.grid.length := by rw [wf.1]; omega
  rw [b.getD_grid_eq r.toNat hrlen]
  simp only [Option.some_bind]
  have hclen : c.toNat < (b.grid.getD r.toNat []).length := by
    rw [wf.2 r.toNat (by omega)]
    omega
  rw [List.getElem?_eq_getElem hclen,
    List.getD_eq_getElem?_getD (b.grid.getD r.toNat []) c.toNat "",
    List.getElem?_eq_getElem hclen]
  rfl

theorem Board.getCell_some_bounds (b : Board) (wf : b.WFdim) (r c : Int)
    (s : String) (h : b.getCell r c = some s) :
    0 ≤ r ∧ r < (b.m_rows : Int) ∧ 0 ≤ c ∧ c < (b.m_cols : Int) ∧
      s = b.cell r.toNat c.toNat := by
  have hne : ¬ b.getCell r c = none := by simp [h]
  rw [b.getCell_eq_none_iff wf r c] at hne
  push_neg at hne
  obtain ⟨h1, h2, h3, h4⟩ := hne
  refine ⟨by omega, by omega, by omega, by omega, ?_⟩
  rw [b.getCell_eq_some wf r c (by omega) (by omega) (by omega) (by omega)] at h
  exact (Option.some.injEq _ _ ▸ h).symm

theorem Board.WFdim_setCell (b : Board) (wf : b.WFdim) (r c : Int)
    (s : String) : (b.setCell r c s).WFdim := by
  constructor
  · show (b.grid.set _ _).length = b.m_rows
    rw [List.length_set, wf.1]
  · intro i hi
    show (((b.grid.set r.toNat _)).getD i []).length = b.m_cols
    rw [List.getD_eq_getElem?_getD, List.getElem?_set]
    by_cases h : r.toNat = i
    · rw [if_pos h]
      by_cases hlt : r.toNat < b.grid.length
      · rw [if_pos hlt]
        show ((b.grid.getD r.toNat []).set c.toNat s).length = b.m_cols
        rw [List.length_set]
        exact wf.2 r.toNat (by rw [← wf.1]; omega)
      · rw [wf.1] at hlt
        rw [setCell_m_rows] at hi
        omega
    · rw [if_neg h, ← List.getD_eq_getElem?_getD]
      rw [setCell_m_rows] at hi
      exact wf.2 i hi

theorem Board.WFb_setCell (b : Board) (wf : b.WFb) (r c : Int)
    (s : String) : (b.setCell r c s).WFb :=
  ⟨wf.1, wf.2.1, b.WFdim_setCell wf.2.2 r c s⟩

theorem Board.cell_setCell_self (b : Board) (wf : b.WFdim) (x y : Int)
    (hx0 : 0 ≤ x) (hx : x < (b.m_rows : Int)) (hy0 : 0 ≤ y)
    (hy : y < (b.m_cols : Int)) (s : String) :
    (b.setCell x y s).cell x.toNat y.toNat = s := by
  have hxlen : x.toNat < b.grid.length := by rw [wf.1]; omega
  have hylen : y.toNat < (b.grid.getD x.toNat []).length := by
    rw [wf.2 x.toNat (by omega)]; omega
  show ((b.grid.set x.toNat
    ((b.grid.getD x.toNat []).set y.toNat s)).getD x.toNat []).getD
      y.toNat "" = s
  rw [List.getD_eq_getElem?_getD
    (b.grid.set x.toNat ((b.grid.getD x.toNat []).set y.toNat s))
    x.toNat [], List.getElem?_set_self (by simpa using hxlen)]
  show ((b.grid.getD x.toNat []).set y.toNat s).getD y.toNat "" = s
  rw [List.getD_eq_getElem?_getD ((b.grid.getD x.toNat []).set y.toNat s)
    y.toNat "", List.getElem?_set_self (by simpa using hylen)]
  rfl

theorem Board.getCell_setCell_self (b : Board) (wf : b.WFdim) (x y : Int)
    (hx0 : 0 ≤ x) (hx : x < (b.m_rows : Int)) (hy0 : 0 ≤ y)
    (hy : y < (b.m_cols : Int)) (s : String) :
    (b.setCell x y s).getCell x y = some s := by
  rw [(b.setCell x y s).getCell_eq_some (b.WFdim_setCell wf x y s) x y hx0
    (by rw [setCell_m_rows]; omega) hy0 (by rw [setCell_m_cols]; omega)]
  rw [b.cell_setCell_self wf x y hx0 hx hy0 hy s]

theorem Board.getCell_setCell_ne (b : Board) (x y : Int) (s : String)
    (hx : 0 ≤ x) (hy : 0 ≤ y) (r c : Int) (hne : (r, c) ≠ (x, y)) :
    (b.setCell x y s).getCell r c = b.getCell r c := by
  rw [Board.getCell_def, Board.getCell_def, Board.grid_setCell]
  by_cases hneg : r < 0 ∨ c < 0
  · rw [if_pos hneg, if_pos hneg]
  · rw [if_neg hneg, if_neg hneg]
    push_neg at hneg
    obtain ⟨hr0, hc0⟩ := hneg
    by_cases hrx : x.toNat = r.toNat
    · have hrx' : r = x := by omega
      have hcy' : c ≠ y := fun hcc => hne (by rw [hrx', hcc])
      have hcy : y.toNat ≠ c.toNat := by omega
      rw [← hrx, List.getElem?_set, if_pos rfl]
      by_cases hxl : x.toNat < b.grid.length
      · rw [if_pos hxl, b.getD_grid_eq x.toNat hxl]
        simp only [Option.some_bind]
        rw [List.getElem?_set_ne hcy]
      · rw [if_neg hxl, List.getElem?_eq_none (by omega)]
    · rw [List.getElem?_set, if_neg hrx]

theorem Board.getCell_setCell_cases (b : Board) (x y r c : Int)
    (s : String) :
    (b.setCell x y s).getCell r c = b.getCell r c ∨
      (b.setCell x y s).getCell r c = some s := by
  rw [Board.getCell_def, Board.getCell_def, Board.grid_setCell]
  by_cases hneg : r < 0 ∨ c < 0
  · left; rw [if_pos hneg, if_pos hneg]
  · rw [if_neg hneg, if_neg hneg]
    rw [List.getElem?_set]
    by_cases hrx : x.toNat = r.toNat
    · rw [if_pos hrx]
      by_cases hxl : x.toNat < b.grid.length
      · rw [if_pos hxl]
        simp only [Option.some_bind]
        rw [List.getElem?_set]
        by_cases hcy : y.toNat = c.toNat
        · rw [if_pos hcy]
          by_cases hyl : y.toNat < (b.grid.getD x.toNat []).length
          · right; rw [if_pos hyl]
          · left
            rw [if_neg hyl, ← hrx, b.getD_grid_eq x.toNat hxl]
            simp only [Option.some_bind]
            rw [List.getElem?_eq_none (by omega)]
        · left
          rw [if_neg hcy, ← hrx, b.getD_grid_eq x.toNat hxl]
          simp only [Option.some_bind]
      · left
        rw [if_neg hxl, ← hrx, List.getElem?_eq_none (by omega)]
    · left; rw [if_neg hrx]

theorem countP_set_balance {α : Type} (p : α → Bool) (a : α) (l : List α) :
    ∀ (i : Nat) (d : α), i < l.length →
      (l.set i a).countP p + (if p (l.getD i d) then 1 else 0)
        = l.countP p + (if p a then 1 else 0) := by
  induction l with
  | nil => intro i d h; simp at h
  | cons x xs ih =>
    intro i d h
    cases i with
    | zero =>
      simp only [List.set_cons_zero, List.countP_cons, List.getD_cons_zero]
      omega
    | succ i =>
      have h2 : i < xs.length := by simpa using h
      have h3 := ih i d h2
      simp only [List.set_cons_succ, List.countP_cons, List.getD_cons_succ]
      omega

theorem sum_map_set_balance (f : List String → Nat) (l : List (List String)) :
    ∀ (i : Nat) (x d : List String), i < l.length →
      ((l.set i x).map f).sum + f (l.getD i d)
        = (l.map f).sum + f x := by
  induction l with
  | nil => intro i x d h; simp at h
  | cons y ys ih =>
    intro i x d h
    cases i with
    | zero =>
      simp only [List.set_cons_zero, List.map_cons, List.sum_cons,
        List.getD_cons_zero]
      omega
    | succ i =>
      have h2 : i < ys.length := by simpa using h
      have h3 := ih i x d h2
      simp only [List.set_cons_succ, List.map_cons, List.sum_cons,
        List.getD_cons_succ]
      omega

theorem Board.countEmpty_setCell (b : Board) (wf : b.WFdim) (x y : Int)
    (hx0 : 0 ≤ x) (hx : x < (b.m_rows : Int)) (hy0 : 0 ≤ y)
    (hy : y < (b.m_cols : Int)) (s : String) :
    (b.setCell x y s).countEmpty +
        (if b.cell x.toNat y.toNat = EMPTY_SPOT then 1 else 0)
      = b.countEmpty + (if s = EMPTY_SPOT then 1 else 0) := by
  have hxlen : x.toNat < b.grid.length := by rw [wf.1]; omega
  have hylen : y.toNat < (b.grid.getD x.toNat []).length := by
    rw [wf.2 x.toNat (by omega)]; omega
  have h1 := sum_map_set_balance rowEmptyCount b.grid x.toNat
    ((b.grid.getD x.toNat []).set y.toNat s) [] hxlen
  have h2 := countP_set_balance (fun z => z == EMPTY_SPOT) s
    (b.grid.getD x.toNat []) y.toNat "" hylen
  unfold Board.countEmpty Board.cell
  rw [Board.grid_setCell]
  unfold rowEmptyCount at h1 ⊢
  simp only [beq_iff_eq] at h1 h2 ⊢
  omega

theorem mkBoard_WFdim (r c : Nat) : (mkBoard r c).WFdim := by
  constructor
  · simp [mkBoard]
  · intro i hi
    have hi' : i < r := hi
    show ((List.replicate r (List.replicate c EMPTY_SPOT)).getD i []).length = c
    rw [List.getD_eq_getElem?_getD, List.getElem?_replicate_of_lt hi']
    simp

theorem initGame_WFb : initGame.board.WFb :=
  Board.WFb_setCell _
    (Board.WFb_setCell _ ⟨rfl, rfl, mkBoard_WFdim 7 7⟩ _ _ _) _ _ _

theorem initGame_cell_val : ∀ (i j : Fin 7),
    initGame.board.getCell (i.1 : Int) (j.1 : Int) =
      some (if i.1 = 0 ∧ j.1 = 3 then "B"
        else if i.1 = 6 ∧ j.1 = 3 then "W" else "+") := by
  decide

theorem initGame_cell_class (r c : Int) (s : String)
    (h : initGame.board.getCell r c = some s) :
    s = if r = 0 ∧ c = 3 then "B" else if r = 6 ∧ c = 3 then "W"
      else "+" := by
  have hrows : initGame.board.m_rows = 7 := rfl
  have hcols : initGame.board.m_cols = 7 := rfl
  obtain ⟨hr0, hr, hc0, hc, hs⟩ :=
    Board.getCell_some_bounds _ initGame_WFb.2.2 r c s h
  rw [hrows] at hr
  rw [hcols] at hc
  have hval := initGame_cell_val ⟨r.toNat, by omega⟩ ⟨c.toNat, by omega⟩
  have hr2 : ((r.toNat : Nat) : Int) = r := Int.toNat_of_nonneg hr0
  have hc2 : ((c.toNat : Nat) : Int) = c := Int.toNat_of_nonneg hc0
  dsimp only at hval
  rw [hr2, hc2, h] at hval
  have hsv := (Option.some.injEq _ _ ▸ hval)
  have e1 : (r.toNat = 0 ∧ c.toNat = 3) ↔ (r = 0 ∧ c = 3) := by omega
  have e2 : (r.toNat = 6 ∧ c.toNat = 3) ↔ (r = 6 ∧ c = 3) := by omega
  rw [hsv]
  simp only [e1, e2]

theorem initGame_Inv : initGame.Inv := by
  refine ⟨initGame_WFb, rfl, rfl, by decide, by decide, by decide, ?_⟩
  intro r c s h h1 h2
  have hcls := initGame_cell_class r c s h
  have h1' : (r, c) ≠ ((0 : Int), (3 : Int)) := h1
  have h2' : (r, c) ≠ ((6 : Int), (3 : Int)) := h2
  rw [if_neg, if_neg] at hcls
  · left; exact hcls
  · exact fun hh => h2' (by rw [hh.1, hh.2])
  · exact fun hh => h1' (by rw [hh.1, hh.2])

theorem attemptMove_eq_of_ok (g : Game) (who : Bool) (d : Direction)
    (h : g.moveOutcome who d = .ok) :
    g.attemptMove who d = (true,
      { g.setPlayer who ⟨(g.playerOf who).avitar, (g.moveTarget who d).1,
          (g.moveTarget who d).2⟩ with
        board := (g.board.setCell (g.playerOf who).row (g.playerOf who).col
          DEAD_CELL).setCell (g.moveTarget who d).1 (g.moveTarget who d).2
          (g.playerOf who).avitar }) := by
  simp [Game.attemptMove, h]

theorem attemptMove_eq_of_reject (g : Game) (who : Bool) (d : Direction)
    (h : g.moveOutcome who d ≠ .ok) :
    g.attemptMove who d = (false, g) := by
  cases hh : g.moveOutcome who d with
  | ok => exact absurd hh h
  | outOfBounds => simp [Game.attemptMove, hh]
  | burned => simp [Game.attemptMove, hh]
  | occupied => simp [Game.attemptMove, hh]

theorem moveOutcome_ok_elim (g : Game) (who : Bool) (d : Direction)
    (h : g.moveOutcome who d = .ok) :
    0 ≤ (g.moveTarget who d).1 ∧
    (g.moveTarget who d).1 ≤ (g.board.rows : Int) - 1 ∧
    0 ≤ (g.moveTarget who d).2 ∧
    (g.moveTarget who d).2 ≤ (g.board.cols : Int) - 1 ∧
    g.board.getCell (g.moveTarget who d).1 (g.moveTarget who d).2 ≠
      some DEAD_CELL ∧
    g.board.getCell (g.moveTarget who d).1 (g.moveTarget who d).2 ≠
      some g.p1.avitar ∧
    g.board.getCell (g.moveTarget who d).1 (g.moveTarget who d).2 ≠
      some g.p2.avitar := by
  simp only [Game.moveOutcome] at h
  split_ifs at h with h1 h2 h3
  all_goals first
  | exact MoveOutcome.noConfusion h
  | (push_neg at h1
     rw [not_or] at h3
     exact ⟨by omega, by omega, by omega, by omega, h2, h3.1, h3.2⟩)

theorem moveOutcome_ok_intro (g : Game) (who : Bool) (d : Direction)
    (hInv : g.Inv)
    (hb : 0 ≤ (g.moveTarget who d).1 ∧ (g.moveTarget who d).1 < 7 ∧
      0 ≤ (g.moveTarget who d).2 ∧ (g.moveTarget who d).2 < 7)
    (he : g.board.getCell (g.moveTarget who d).1 (g.moveTarget who d).2 =
      some EMPTY_SPOT) :
    g.moveOutcome who d = .ok := by
  obtain ⟨wfb, ha1, ha2, _⟩ := hInv
  have hrows : g.board.rows = 7 := wfb.1
  have hcols : g.board.cols = 7 := wfb.1
  simp only [Game.moveOutcome]
  rw [if_neg (by rw [hrows, hcols]; omega), if_neg, if_neg]
  · rw [not_or, he, ha1, ha2]
    constructor <;> simp [EMPTY_SPOT]
  · rw [he]
    simp [EMPTY_SPOT, DEAD_CELL]

/-- The mover's stored position holds the mover's own avitar. -/
theorem Inv_player_cell (g : Game) (hInv : g.Inv) (who : Bool) :
    g.board.getCell (g.playerOf who).row (g.playerOf who).col =
      some (g.playerOf who).avitar := by
  obtain ⟨_, ha1, ha2, hc1, hc2, _⟩ := hInv
  cases who
  · show g.board.getCell g.p2.row g.p2.col = some g.p2.avitar
    rw [hc2, ha2]
  · show g.board.getCell g.p1.row g.p1.col = some g.p1.avitar
    rw [hc1, ha1]

theorem Inv_avitar_ne_empty (g : Game) (hInv : g.Inv) (who : Bool) :
    (g.playerOf who).avitar ≠ EMPTY_SPOT ∧
      (g.playerOf who).avitar ≠ DEAD_CELL := by
  obtain ⟨_, ha1, ha2, _⟩ := hInv
  cases who
  · show g.p2.avitar ≠ EMPTY_SPOT ∧ g.p2.avitar ≠ DEAD_CELL
    rw [ha2]
    exact ⟨by decide, by decide⟩
  · show g.p1.avitar ≠ EMPTY_SPOT ∧ g.p1.avitar ≠ DEAD_CELL
    rw [ha1]
    exact ⟨by decide, by decide⟩

/-- Board-level effect of a successful move: the vacated cell `(pr, pc)`
becomes `DEAD_CELL`, the destination `(mr, mc)` (previously empty)
becomes the avitar, every other cell is untouched, and the number of
empty cells drops by exactly one. -/
theorem board_move_step (b : Board) (wfb : b.WFb) (pr pc mr mc : Int)
    (av : String) (hp : b.getCell pr pc = some av)
    (hm : b.getCell mr mc = some EMPTY_SPOT)
    (hav1 : av ≠ EMPTY_SPOT) (hav2 : av ≠ DEAD_CELL) :
    ((b.setCell pr pc DEAD_CELL).setCell mr mc av).WFb ∧
    ((b.setCell pr pc DEAD_CELL).setCell mr mc av).getCell mr mc =
      some av ∧
    ((b.setCell pr pc DEAD_CELL).setCell mr mc av).getCell pr pc =
      some DEAD_CELL ∧
    (∀ x y : Int, (x, y) ≠ (pr, pc) → (x, y) ≠ (mr, mc) →
      ((b.setCell pr pc DEAD_CELL).setCell mr mc av).getCell x y =
        b.getCell x y) ∧
    ((b.setCell pr pc DEAD_CELL).setCell mr mc av).countEmpty + 1 =
      b.countEmpty := by
  obtain ⟨hp0, hp1, hp2, hp3, hps⟩ :=
    Board.getCell_some_bounds b wfb.2.2 pr pc av hp
  obtain ⟨hm0, hm1, hm2, hm3, hms⟩ :=
    Board.getCell_some_bounds b wfb.2.2 mr mc EMPTY_SPOT hm
  have hne_mp : (mr, mc) ≠ (pr, pc) := by
    intro hh
    rw [Prod.mk.injEq] at hh
    rw [hh.1, hh.2, hp] at hm
    exact hav1 (Option.some.injEq _ _ ▸ hm)
  have wfb1 : (b.setCell pr pc DEAD_CELL).WFb :=
    Board.WFb_setCell b wfb pr pc DEAD_CELL
  have wfb2 : ((b.setCell pr pc DEAD_CELL).setCell mr mc av).WFb :=
    Board.WFb_setCell _ wfb1 mr mc av
  have hb1_keep : (b.setCell pr pc DEAD_CELL).getCell mr mc =
      b.getCell mr mc :=
    Board.getCell_setCell_ne b pr pc DEAD_CELL hp0 hp2 mr mc hne_mp
  refine ⟨wfb2, ?_, ?_, ?_, ?_⟩
  · exact Board.getCell_setCell_self _ wfb1.2.2 mr mc hm0
      (by rw [Board.setCell_m_rows]; omega) hm2
      (by rw [Board.setCell_m_cols]; omega) av
  · rw [Board.getCell_setCell_ne _ mr mc av hm0 hm2 pr pc hne_mp.symm]
    exact Board.getCell_setCell_self b wfb.2.2 pr pc hp0 hp1 hp2 hp3
      DEAD_CELL
  · intro x y hx hy
    rw [Board.getCell_setCell_ne _ mr mc av hm0 hm2 x y hy,
      Board.getCell_setCell_ne b pr pc DEAD_CELL hp0 hp2 x y hx]
  · have hc1 := Board.countEmpty_setCell b wfb.2.2 pr pc hp0 hp1 hp2 hp3
      DEAD_CELL
    have hc2 := Board.countEmpty_setCell (b.setCell pr pc DEAD_CELL)
      wfb1.2.2 mr mc hm0 (by rw [Board.setCell_m_rows]; omega) hm2
      (by rw [Board.setCell_m_cols]; omega) av
    have he1 : (if b.cell pr.toNat pc.toNat = EMPTY_SPOT then 1 else 0)
        = 0 := by
      rw [← hps]
      simp [hav1]
    have he2 : (if DEAD_CELL = EMPTY_SPOT then 1 else 0) = 0 := by decide
    have he3 : (if av = EMPTY_SPOT then 1 else 0) = 0 := by simp [hav1]
    have hcellb1 : (b.setCell pr pc DEAD_CELL).cell mr.toNat mc.toNat =
        EMPTY_SPOT := by
      have := hb1_keep
      rw [hm] at this
      obtain ⟨_, _, _, _, hs⟩ := Board.getCell_some_bounds _ wfb1.2.2 mr mc
        EMPTY_SPOT this
      exact hs.symm
    rw [he1, he2] at hc1
    rw [hcellb1, he3] at hc2
    simp at hc2
    omega

/-- Board-level effect of a successful arrow: the (previously empty)
target becomes `DEAD_CELL`, every other cell is untouched, and the
number of empty cells drops by exactly one. -/
theorem board_arrow_step (b : Board) (wfb : b.WFb) (tr tc : Int)
    (hm : b.getCell tr tc = some EMPTY_SPOT) :
    (b.setCell tr tc DEAD_CELL).WFb ∧
    (b.setCell tr tc DEAD_CELL).getCell tr tc = some DEAD_CELL ∧
    (∀ x y : Int, (x, y) ≠ (tr, tc) →
      (b.setCell tr tc DEAD_CELL).getCell x y = b.getCell x y) ∧
    (b.setCell tr tc DEAD_CELL).countEmpty + 1 = b.countEmpty := by
  obtain ⟨hm0, hm1, hm2, hm3, hms⟩ :=
    Board.getCell_some_bounds b wfb.2.2 tr tc EMPTY_SPOT hm
  refine ⟨Board.WFb_setCell b wfb tr tc DEAD_CELL, ?_, ?_, ?_⟩
  · exact Board.getCell_setCell_self b wfb.2.2 tr tc hm0 hm1 hm2 hm3
      DEAD_CELL
  · intro x y hx
    exact Board.getCell_setCell_ne b tr tc DEAD_CELL hm0 hm2 x y hx
  · have hc := Board.countEmpty_setCell b wfb.2.2 tr tc hm0 hm1 hm2 hm3
      DEAD_CELL
    rw [← hms] at hc
    have e2 : (if DEAD_CELL = EMPTY_SPOT then 1 else 0) = 0 := by decide
    rw [e2] at hc
    simp at hc
    omega

theorem moveOutcome_ok_empty (g : Game) (who : Bool) (d : Direction)
    (hInv : g.Inv) (hok : g.moveOutcome who d = .ok) :
    g.board.getCell (g.moveTarget who d).1 (g.moveTarget who d).2 =
      some EMPTY_SPOT := by
  obtain ⟨h0, h1, h2, h3, hnd, hnb, hnw⟩ := moveOutcome_ok_elim g who d hok
  obtain ⟨wfb, ha1, ha2, hc1, hc2, hdist, hclass⟩ := hInv
  have hrows : g.board.rows = g.board.m_rows := rfl
  have hcols : g.board.cols = g.board.m_rows := rfl
  have hmr : g.board.m_rows = 7 := wfb.1
  have hmc : g.board.m_cols = 7 := wfb.2.1
  have hsome := Board.getCell_eq_some g.board wfb.2.2
    (g.moveTarget who d).1 (g.moveTarget who d).2 h0 (by omega) h2 (by omega)
  by_cases hp1 : ((g.moveTarget who d).1, (g.moveTarget who d).2) =
      (g.p1.row, g.p1.col)
  · exfalso
    rw [Prod.mk.injEq] at hp1
    rw [hp1.1, hp1.2, hc1] at hnb
    rw [ha1] at hnb
    exact hnb rfl
  · by_cases hp2 : ((g.moveTarget who d).1, (g.moveTarget who d).2) =
        (g.p2.row, g.p2.col)
    · exfalso
      rw [Prod.mk.injEq] at hp2
      rw [hp2.1, hp2.2, hc2] at hnw
      rw [ha2] at hnw
      exact hnw rfl
    · rcases hclass (g.moveTarget who d).1 (g.moveTarget who d).2 _ hsome
        hp1 hp2 with he | he
      · rw [hsome, he]
      · exfalso
        rw [hsome, he] at hnd
        exact hnd rfl

/-- Full characterisation of a successful `attemptMove`: the invariant
is preserved, the empty-cell count drops by one, the active-player flag
is untouched, the mover's record now carries the target coordinates,
the vacated cell is burned, the target cell carries the mover's avitar,
and the other player's record is untouched. -/
theorem attemptMove_success_spec (g : Game) (who : Bool) (d : Direction)
    (g2 : Game) (hInv : g.Inv) (h : g.attemptMove who d = (true, g2)) :
    g2.Inv ∧
    g2.board.countEmpty + 1 = g.board.countEmpty ∧
    g2.activeIsP1 = g.activeIsP1 ∧
    g2.playerOf who = ⟨(g.playerOf who).avitar, (g.moveTarget who d).1,
      (g.moveTarget who d).2⟩ ∧
    g2.board.getCell (g.playerOf who).row (g.playerOf who).col =
      some DEAD_CELL ∧
    g2.board.getCell (g.moveTarget who d).1 (g.moveTarget who d).2 =
      some (g.playerOf who).avitar ∧
    g2.playerOf (!who) = g.playerOf (!who) := by
  have hok : g.moveOutcome who d = .ok := by
    by_contra hne
    rw [attemptMove_eq_of_reject g who d hne] at h
    simp at h
  have hempty := moveOutcome_ok_empty g who d hInv hok
  have hpcell := Inv_player_cell g hInv who
  have hav := Inv_avitar_ne_empty g hInv who
  have hstep := board_move_step g.board hInv.1 (g.playerOf who).row
    (g.playerOf who).col (g.moveTarget who d).1 (g.moveTarget who d).2
    (g.playerOf who).avitar hpcell hempty hav.1 hav.2
  obtain ⟨wfb2, hcand, hold, hother, hcount⟩ := hstep
  have hshape := attemptMove_eq_of_ok g who d hok
  rw [hshape] at h
  have hg2 : g2 = { g.setPlayer who ⟨(g.playerOf who).avitar,
      (g.moveTarget who d).1, (g.moveTarget who d).2⟩ with
    board := (g.board.setCell (g.playerOf who).row (g.playerOf who).col
      DEAD_CELL).setCell (g.moveTarget who d).1 (g.moveTarget who d).2
      (g.playerOf who).avitar } := ((Prod.mk.injEq _ _ _ _).mp h).2.symm
  have hmove_ne_p1 : ((g.moveTarget who d).1, (g.moveTarget who d).2) ≠
      (g.p1.row, g.p1.col) := by
    intro hh
    rw [Prod.mk.injEq] at hh
    rw [hh.1, hh.2, hInv.2.2.2.1] at hempty
    have : "B" = EMPTY_SPOT := Option.some.injEq _ _ ▸ hempty
    exact absurd this (by decide)
  have hmove_ne_p2 : ((g.moveTarget who d).1, (g.moveTarget who d).2) ≠
      (g.p2.row, g.p2.col) := by
    intro hh
    rw [Prod.mk.injEq] at hh
    rw [hh.1, hh.2, hInv.2.2.2.2.1] at hempty
    have : "W" = EMPTY_SPOT := Option.some.injEq _ _ ▸ hempty
    exact absurd this (by decide)
  cases who
  · -- the mover is p2
    have hb2eq : g2.board = (g.board.setCell (g.playerOf false).row
        (g.playerOf false).col DEAD_CELL).setCell
        (g.moveTarget false d).1 (g.moveTarget false d).2
        (g.playerOf false).avitar := by rw [hg2]
    have hp1eq : g2.p1 = g.p1 := by rw [hg2]; rfl
    have hp2eq : g2.p2 = ⟨(g.playerOf false).avitar,
        (g.moveTarget false d).1, (g.moveTarget false d).2⟩ := by
      rw [hg2]; rfl
    have hacteq : g2.activeIsP1 = g.activeIsP1 := by rw [hg2]; rfl
    have hppos : ((g.playerOf false).row, (g.playerOf false).col) =
        (g.p2.row, g.p2.col) := rfl
    refine ⟨⟨?_, ?_, ?_, ?_, ?_, ?_, ?_⟩, ?_, ?_, ?_, ?_, ?_, ?_⟩
    · rw [hb2eq]; exact wfb2
    · rw [hp1eq]; exact hInv.2.1
    · rw [hp2eq]; exact hInv.2.2.1
    · rw [hb2eq, hp1eq]
      rw [hother g.p1.row g.p1.col (by rw [hppos]; exact hInv.2.2.2.2.2.1)
        hmove_ne_p1.symm]
      exact hInv.2.2.2.1
    · rw [hb2eq, hp2eq, ← hInv.2.2.1]
      exact hcand
    · rw [hp1eq, hp2eq]
      exact fun hh => hmove_ne_p1 hh.symm
    · intro x y s' hcell hne1 hne2
      rw [hb2eq] at hcell
      rw [hp1eq] at hne1
      rw [hp2eq] at hne2
      dsimp only at hne2
      by_cases hxy : (x, y) = ((g.playerOf false).row, (g.playerOf false).col)
      · rw [Prod.mk.injEq] at hxy
        rw [hxy.1, hxy.2, hold] at hcell
        right
        exact (Option.some.injEq _ _ ▸ hcell).symm
      · rw [hother x y hxy hne2] at hcell
        exact hInv.2.2.2.2.2.2 x y s' hcell hne1 (by rw [← hppos]; exact hxy)
    · rw [hb2eq]; exact hcount
    · exact hacteq
    · exact hp2eq
    · rw [hb2eq]; exact hold
    · rw [hb2eq]; exact hcand
    · exact hp1eq
  · -- the mover is p1
    have hb2eq : g2.board = (g.board.setCell (g.playerOf true).row
        (g.playerOf true).col DEAD_CELL).setCell
        (g.moveTarget true d).1 (g.moveTarget true d).2
        (g.playerOf true).avitar := by rw [hg2]
    have hp1eq : g2.p1 = ⟨(g.playerOf true).avitar,
        (g.moveTarget true d).1, (g.moveTarget true d).2⟩ := by
      rw [hg2]; rfl
    have hp2eq : g2.p2 = g.p2 := by rw [hg2]; rfl
    have hacteq : g2.activeIsP1 = g.activeIsP1 := by rw [hg2]; rfl
    have hppos : ((g.playerOf true).row, (g.playerOf true).col) =
        (g.p1.row, g.p1.col) := rfl
    refine ⟨⟨?_, ?_, ?_, ?_, ?_, ?_, ?_⟩, ?_, ?_, ?_, ?_, ?_, ?_⟩
    · rw [hb2eq]; exact wfb2
    · rw [hp1eq]; exact hInv.2.1
    · rw [hp2eq]; exact hInv.2.2.1
    · rw [hb2eq, hp1eq, ← hInv.2.1]
      exact hcand
    · rw [hb2eq, hp2eq]
      rw [hother g.p2.row g.p2.col
        (by rw [hppos]; exact fun hh => hInv.2.2.2.2.2.1 hh.symm)
        hmove_ne_p2.symm]
      exact hInv.2.2.2.2.1
    · rw [hp1eq, hp2eq]
      exact fun hh => hmove_ne_p2 hh
    · intro x y s' hcell hne1 hne2
      rw [hb2eq] at hcell
      rw [hp1eq] at hne1
      rw [hp2eq] at hne2
      dsimp only at hne1
      by_cases hxy : (x, y) = ((g.playerOf true).row, (g.playerOf true).col)
      · rw [Prod.mk.injEq] at hxy
        rw [hxy.1, hxy.2, hold] at hcell
        right
        exact (Option.some.injEq _ _ ▸ hcell).symm
      · rw [hother x y hxy hne1] at hcell
        exact hInv.2.2.2.2.2.2 x y s' hcell (by rw [← hppos]; exact hxy) hne2
    · rw [hb2eq]; exact hcount
    · exact hacteq
    · exact hp1eq
    · rw [hb2eq]; exact hold
    · rw [hb2eq]; exact hcand
    · exact hp2eq

/-- Full characterisation of a successful `fireArrowAt`: the invariant
is preserved, the empty-cell count drops by one, players and the
active-player flag are untouched, the (previously empty) target cell is
burned and every other cell is unchanged. -/
theorem fireArrowAt_success_spec (g : Game) (ir ic : Int) (g2 : Game)
    (hInv : g.Inv) (h : g.fireArrowAt ir ic = (true, g2)) :
    g2.Inv ∧
    g2.board.countEmpty + 1 = g.board.countEmpty ∧
    g2.activeIsP1 = g.activeIsP1 ∧
    g2.p1 = g.p1 ∧ g2.p2 = g.p2 ∧
    g.board.getCell (ir - 1) (ic - 1) = some EMPTY_SPOT ∧
    g2.board.getCell (ir - 1) (ic - 1) = some DEAD_CELL ∧
    (∀ x y : Int, (x, y) ≠ (ir - 1, ic - 1) →
      g2.board.getCell x y = g.board.getCell x y) := by
  simp only [Game.fireArrowAt] at h
  split_ifs at h with h1 h2
  · simp at h
  · have hg2 :
        g2 = { g with board := g.board.setCell (ir - 1) (ic - 1) DEAD_CELL } :=
      ((Prod.mk.injEq _ _ _ _).mp h).2.symm
    obtain ⟨wfb2, htgt, hother, hcount⟩ :=
      board_arrow_step g.board hInv.1 (ir - 1) (ic - 1) h2
    have htgt_ne_p1 : (ir - 1, ic - 1) ≠ (g.p1.row, g.p1.col) := by
      intro hh
      rw [Prod.mk.injEq] at hh
      rw [hh.1, hh.2, hInv.2.2.2.1] at h2
      exact absurd (Option.some.injEq _ _ ▸ h2) (by decide)
    have htgt_ne_p2 : (ir - 1, ic - 1) ≠ (g.p2.row, g.p2.col) := by
      intro hh
      rw [Prod.mk.injEq] at hh
      rw [hh.1, hh.2, hInv.2.2.2.2.1] at h2
      exact absurd (Option.some.injEq _ _ ▸ h2) (by decide)
    have hb2eq : g2.board = g.board.setCell (ir - 1) (ic - 1) DEAD_CELL :=
      by rw [hg2]
    have hp1eq : g2.p1 = g.p1 := by rw [hg2]
    have hp2eq : g2.p2 = g.p2 := by rw [hg2]
    have hacteq : g2.activeIsP1 = g.activeIsP1 := by rw [hg2]
    refine ⟨⟨?_, ?_, ?_, ?_, ?_, ?_, ?_⟩, ?_, hacteq, hp1eq, hp2eq, h2,
      ?_, ?_⟩
    · rw [hb2eq]; exact wfb2
    · rw [hp1eq]; exact hInv.2.1
    · rw [hp2eq]; exact hInv.2.2.1
    · rw [hb2eq, hp1eq, hother g.p1.row g.p1.col htgt_ne_p1.symm]
      exact hInv.2.2.2.1
    · rw [hb2eq, hp2eq, hother g.p2.row g.p2.col htgt_ne_p2.symm]
      exact hInv.2.2.2.2.1
    · rw [hp1eq, hp2eq]; exact hInv.2.2.2.2.2.1
    · intro x y s' hcell hne1 hne2
      rw [hb2eq] at hcell
      rw [hp1eq] at hne1
      rw [hp2eq] at hne2
      by_cases hxy : (x, y) = (ir - 1, ic - 1)
      · rw [Prod.mk.injEq] at hxy
        rw [hxy.1, hxy.2, htgt] at hcell
        right
        exact (Option.some.injEq _ _ ▸ hcell).symm
      · rw [hother x y hxy] at hcell
        exact hInv.2.2.2.2.2.2 x y s' hcell hne1 hne2
    · rw [hb2eq]; exact hcount
    · rw [hb2eq]; exact htgt
    · intro x y hxy
      rw [hb2eq]
      exact hother x y hxy
  · simp at h

theorem ite_chain_intro (p : Prop) [Decidable p] (b : Bool)
    (h : p ∨ b = true) : (if p then true else b) = true := by
  by_cases hp : p
  · simp [hp]
  · rcases h with h2 | h2
    · exact absurd h2 hp
    · simp [hp, h2]

/-- C1: `checkHasValidMove(p)` is true iff at least one of the at most 8
in-bounds neighbour cells of p's position (the player's position plus a
direction delta, inside the 7×7 grid) is Empty (`"+"`); consequently it
is false exactly when no in-bounds neighbour is Empty. -/
theorem C1_spec (g : Game) (who : Bool) (wfb : g.board.WFb) :
    g.checkHasValidMove who = true ↔
      ∃ d : Direction,
        0 ≤ (g.moveTarget who d).1 ∧ (g.moveTarget who d).1 < 7 ∧
        0 ≤ (g.moveTarget who d).2 ∧ (g.moveTarget who d).2 < 7 ∧
        g.board.getCell (g.moveTarget who d).1 (g.moveTarget who d).2 =
          some EMPTY_SPOT := by
  have hmr : g.board.m_rows = 7 := wfb.1
  have hrows : g.board.rows = 7 := hmr
  have hcols : g.board.cols = 7 := hmr
  have hbnd : ∀ r c s, g.board.getCell r c = some s →
      0 ≤ r ∧ r < 7 ∧ 0 ≤ c ∧ c < 7 := by
    intro r c s h
    obtain ⟨a1, a2, a3, a4, _⟩ :=
      Board.getCell_some_bounds _ wfb.2.2 r c s h
    have hmc : g.board.m_cols = 7 := wfb.2.1
    exact ⟨a1, by omega, a3, by omega⟩
  have e1 : (g.playerOf who).row + (-1 : Int) = (g.playerOf who).row - 1 :=
    by ring
  have e2 : (g.playerOf who).col + (-1 : Int) = (g.playerOf who).col - 1 :=
    by ring
  constructor
  · intro h
    simp only [Game.checkHasValidMove] at h
    split_ifs at h with c1 c2 c3 c4 c5 c6 c7 c8
    · obtain ⟨hg1, hg2, hcell⟩ := c1
      obtain ⟨b1, b2, b3, b4⟩ := hbnd _ _ _ hcell
      refine ⟨.upLeft, ?_⟩
      simp only [Game.moveTarget, Direction.delta]
      rw [e1, e2]
      exact ⟨b1, b2, b3, b4, hcell⟩
    · obtain ⟨hg1, hcell⟩ := c2
      obtain ⟨b1, b2, b3, b4⟩ := hbnd _ _ _ hcell
      refine ⟨.up, ?_⟩
      simp only [Game.moveTarget, Direction.delta]
      rw [e1]
      refine ⟨b1, b2, ?_, ?_, ?_⟩ <;> simp only [add_zero]
      · exact b3
      · exact b4
      · exact hcell
    · obtain ⟨hg1, hg2, hcell⟩ := c3
      obtain ⟨b1, b2, b3, b4⟩ := hbnd _ _ _ hcell
      refine ⟨.upRight, ?_⟩
      simp only [Game.moveTarget, Direction.delta]
      rw [e1]
      exact ⟨b1, b2, b3, b4, hcell⟩
    · obtain ⟨hg1, hcell⟩ := c4
      obtain ⟨b1, b2, b3, b4⟩ := hbnd _ _ _ hcell
      refine ⟨.left, ?_⟩
      simp only [Game.moveTarget, Direction.delta]
      rw [e2]
      refine ⟨?_, ?_, b3, b4, ?_⟩ <;> simp only [add_zero]
      · exact b1
      · exact b2
      · exact hcell
    · obtain ⟨hg1, hcell⟩ := c5
      obtain ⟨b1, b2, b3, b4⟩ := hbnd _ _ _ hcell
      refine ⟨.right, ?_⟩
      simp only [Game.moveTarget, Direction.delta]
      refine ⟨?_, ?_, b3, b4, ?_⟩ <;> simp only [add_zero]
      · exact b1
      · exact b2
      · exact hcell
    · obtain ⟨hg1, hg2, hcell⟩ := c6
      obtain ⟨b1, b2, b3, b4⟩ := hbnd _ _ _ hcell
      refine ⟨.downLeft, ?_⟩
      simp only [Game.moveTarget, Direction.delta]
      rw [e2]
      exact ⟨b1, b2, b3, b4, hcell⟩
    · obtain ⟨hg1, hcell⟩ := c7
      obtain ⟨b1, b2, b3, b4⟩ := hbnd _ _ _ hcell
      refine ⟨.down, ?_⟩
      simp only [Game.moveTarget, Direction.delta]
      refine ⟨b1, b2, ?_, ?_, ?_⟩ <;> simp only [add_zero]
      · exact b3
      · exact b4
      · exact hcell
    · obtain ⟨hg1, hg2, hcell⟩ := c8
      obtain ⟨b1, b2, b3, b4⟩ := hbnd _ _ _ hcell
      exact ⟨.downRight, b1, b2, b3, b4, hcell⟩
  · rintro ⟨d, hb1, hb2, hb3, hb4, hcell⟩
    simp only [Game.checkHasValidMove]
    cases d
    case downLeft =>
      simp only [Game.moveTarget, Direction.delta] at hb1 hb2 hb3 hb4 hcell
      rw [e2] at hcell
      exact ite_chain_intro _ _ (Or.inr (ite_chain_intro _ _ (Or.inr
        (ite_chain_intro _ _ (Or.inr (ite_chain_intro _ _ (Or.inr
        (ite_chain_intro _ _ (Or.inr (ite_chain_intro _ _
        (Or.inl ⟨by omega, by omega, hcell⟩)))))))))))
    case down =>
      simp only [Game.moveTarget, Direction.delta] at hb1 hb2 hb3 hb4 hcell
      simp only [add_zero] at hb3 hb4 hcell
      exact ite_chain_intro _ _ (Or.inr (ite_chain_intro _ _ (Or.inr
        (ite_chain_intro _ _ (Or.inr (ite_chain_intro _ _ (Or.inr
        (ite_chain_intro _ _ (Or.inr (ite_chain_intro _ _ (Or.inr
        (ite_chain_intro _ _ (Or.inl ⟨by omega, hcell⟩)))))))))))))
    case downRight =>
      simp only [Game.moveTarget, Direction.delta] at hb1 hb2 hb3 hb4 hcell
      exact ite_chain_intro _ _ (Or.inr (ite_chain_intro _ _ (Or.inr
        (ite_chain_intro _ _ (Or.inr (ite_chain_intro _ _ (Or.inr
        (ite_chain_intro _ _ (Or.inr (ite_chain_intro _ _ (Or.inr
        (ite_chain_intro _ _ (Or.inr (ite_chain_intro _ _
        (Or.inl ⟨by omega, by omega, hcell⟩)))))))))))))))
    case left =>
      simp only [Game.moveTarget, Direction.delta] at hb1 hb2 hb3 hb4 hcell
      simp only [add_zero] at hb1 hb2 hcell
      rw [e2] at hcell
      exact ite_chain_intro _ _ (Or.inr (ite_chain_intro _ _ (Or.inr
        (ite_chain_intro _ _ (Or.inr (ite_chain_intro _ _
        (Or.inl ⟨by omega, hcell⟩)))))))
    case right =>
      simp only [Game.moveTarget, Direction.delta] at hb1 hb2 hb3 hb4 hcell
      simp only [add_zero] at hb1 hb2 hcell
      exact ite_chain_intro _ _ (Or.inr (ite_chain_intro _ _ (Or.inr
        (ite_chain_intro _ _ (Or.inr (ite_chain_intro _ _ (Or.inr
        (ite_chain_intro _ _ (Or.inl ⟨by omega, hcell⟩)))))))))
    case upLeft =>
      simp only [Game.moveTarget, Direction.delta] at hb1 hb2 hb3 hb4 hcell
      rw [e1, e2] at hcell
      exact ite_chain_intro _ _ (Or.inl ⟨by omega, by omega, hcell⟩)
    case up =>
      simp only [Game.moveTarget, Direction.delta] at hb1 hb2 hb3 hb4 hcell
      simp only [add_zero] at hb3 hb4 hcell
      rw [e1] at hcell
      exact ite_chain_intro _ _ (Or.inr (ite_chain_intro _ _
        (Or.inl ⟨by omega, hcell⟩)))
    case upRight =>
      simp only [Game.moveTarget, Direction.delta] at hb1 hb2 hb3 hb4 hcell
      rw [e1] at hcell
      exact ite_chain_intro _ _ (Or.inr (ite_chain_intro _ _ (Or.inr
        (ite_chain_intro _ _ (Or.inl ⟨by omega, by omega, hcell⟩)))))
/-- The invariant holds in every reachable state. -/
theorem Reachable_Inv (g : Game) (h : Reachable g) : g.Inv := by
  induction h with
  | init => exact initGame_Inv
  | move g who d g' hr hstep ih =>
    exact (attemptMove_success_spec g who d g' ih hstep).1
  | arrow g r c g' hr hstep ih =>
    exact (fireArrowAt_success_spec g r c g' ih hstep).1

/-- One completed turn preserves the invariant and removes exactly two
empty cells (one by the move, one by the arrow). -/
theorem turnCycle_spec (g : Game) (d : Direction) (ir ic : Int)
    (g2 : Game) (hInv : g.Inv) (h : g.turnCycle d ir ic = some g2) :
    g2.Inv ∧ g2.board.countEmpty + 2 = g.board.countEmpty := by
  simp only [Game.turnCycle] at h
  by_cases hguard : g.checkHasValidMove g.activeIsP1 = true
  · rw [if_pos hguard] at h
    cases hm : g.attemptMove g.activeIsP1 d with
    | mk okM gm =>
      rw [hm] at h
      dsimp only at h
      cases okM with
      | false => simp at h
      | true =>
        rw [if_pos rfl] at h
        cases ha : gm.fireArrowAt ir ic with
        | mk okA ga =>
          rw [ha] at h
          dsimp only at h
          cases okA with
          | false => simp at h
          | true =>
            rw [if_pos rfl] at h
            have hg2 : g2 = ga.flipActive :=
              (Option.some.injEq _ _ ▸ h).symm
            have hmspec := attemptMove_success_spec g g.activeIsP1 d gm
              hInv hm
            have haspec := fireArrowAt_success_spec gm ir ic ga hmspec.1 ha
            constructor
            · rw [hg2]
              show ga.flipActive.Inv
              have hinva := haspec.1
              exact ⟨hinva.1, hinva.2.1, hinva.2.2.1, hinva.2.2.2.1,
                hinva.2.2.2.2.1, hinva.2.2.2.2.2.1, hinva.2.2.2.2.2.2⟩
            · rw [hg2]
              show ga.board.countEmpty + 2 = g.board.countEmpty
              have h1 := hmspec.2.1
              have h2 := haspec.2.1
              omega
  · rw [if_neg hguard] at h
    simp at h

/-- A run of completed turns preserves the invariant and removes exactly
two empty cells per turn. -/
theorem turnSeq_spec (ms : List (Direction × Int × Int)) :
    ∀ g g2 : Game, g.Inv → g.turnSeq ms = some g2 →
      g2.Inv ∧ g2.board.countEmpty + 2 * ms.length = g.board.countEmpty := by
  induction ms with
  | nil =>
    intro g g2 hInv h
    simp only [Game.turnSeq] at h
    have : g = g2 := Option.some.injEq _ _ ▸ h
    rw [← this]
    exact ⟨hInv, by simp⟩
  | cons m rest ih =>
    intro g g2 hInv h
    obtain ⟨d, r, c⟩ := m
    simp only [Game.turnSeq] at h
    cases hc : g.turnCycle d r c with
    | none => rw [hc] at h; simp at h
    | some g1 =>
      rw [hc] at h
      simp only at h
      obtain ⟨hInv1, hcount1⟩ := turnCycle_spec g d r c g1 hInv hc
      obtain ⟨hInv2, hcount2⟩ := ih g1 g2 hInv1 h
      refine ⟨hInv2, ?_⟩
      simp only [List.length_cons]
      omega

theorem C1_witness :
    initGame.checkHasValidMove true = true ↔
      ∃ d : Direction,
        0 ≤ (initGame.moveTarget true d).1 ∧
        (initGame.moveTarget true d).1 < 7 ∧
        0 ≤ (initGame.moveTarget true d).2 ∧
        (initGame.moveTarget true d).2 < 7 ∧
        initGame.board.getCell (initGame.moveTarget true d).1
          (initGame.moveTarget true d).2 = some EMPTY_SPOT :=
  C1_spec initGame true initGame_WFb

theorem attemptMove_active (g : Game) (who : Bool) (d : Direction) :
    ((g.attemptMove who d).2).activeIsP1 = g.activeIsP1 := by
  by_cases hok : g.moveOutcome who d = .ok
  · rw [attemptMove_eq_of_ok g who d hok]
    cases who <;> rfl
  · rw [attemptMove_eq_of_reject g who d hok]

theorem fireArrowAt_active (g : Game) (ir ic : Int) :
    ((g.fireArrowAt ir ic).2).activeIsP1 = g.activeIsP1 := by
  simp only [Game.fireArrowAt]
  split_ifs <;> rfl

/-- C2: whenever the candidate cell (the player's position plus the
direction's delta) is in bounds and Empty, `attemptMove` returns true,
burns the vacated cell (which in particular is not left Empty), puts
the mover's avitar on the candidate cell, and stores the candidate
coordinates in the player record. -/
theorem C2_spec (g : Game) (who : Bool) (d : Direction) (hInv : g.Inv)
    (hb : 0 ≤ (g.moveTarget who d).1 ∧ (g.moveTarget who d).1 < 7 ∧
      0 ≤ (g.moveTarget who d).2 ∧ (g.moveTarget who d).2 < 7)
    (he : g.board.getCell (g.moveTarget who d).1 (g.moveTarget who d).2 =
      some EMPTY_SPOT) :
    (g.attemptMove who d).1 = true ∧
    ((g.attemptMove who d).2).board.getCell (g.playerOf who).row
      (g.playerOf who).col = some DEAD_CELL ∧
    ((g.attemptMove who d).2).board.getCell (g.playerOf who).row
      (g.playerOf who).col ≠ some EMPTY_SPOT ∧
    ((g.attemptMove who d).2).board.getCell (g.moveTarget who d).1
      (g.moveTarget who d).2 = some (g.playerOf who).avitar ∧
    (((g.attemptMove who d).2).playerOf who).row = (g.moveTarget who d).1 ∧
    (((g.attemptMove who d).2).playerOf who).col = (g.moveTarget who d).2 := by
  have hok := moveOutcome_ok_intro g who d hInv hb he
  have h2 : g.attemptMove who d = (true, (g.attemptMove who d).2) := by
    rw [attemptMove_eq_of_ok g who d hok]
  have spec := attemptMove_success_spec g who d ((g.attemptMove who d).2)
    hInv h2
  refine ⟨by rw [attemptMove_eq_of_ok g who d hok], spec.2.2.2.2.1, ?_,
    spec.2.2.2.2.2.1, ?_, ?_⟩
  · rw [spec.2.2.2.2.1]
    decide
  · rw [spec.2.2.2.1]
  · rw [spec.2.2.2.1]

theorem C2_witness :
    (0 ≤ (initGame.moveTarget true Direction.down).1 ∧
      (initGame.moveTarget true Direction.down).1 < 7 ∧
      0 ≤ (initGame.moveTarget true Direction.down).2 ∧
      (initGame.moveTarget true Direction.down).2 < 7) ∧
    (initGame.attemptMove true Direction.down).1 = true ∧
    ((initGame.attemptMove true Direction.down).2).board.getCell
      (initGame.playerOf true).row (initGame.playerOf true).col =
      some DEAD_CELL :=
  ⟨by decide,
    (C2_spec initGame true Direction.down initGame_Inv (by decide)
      (by decide)).1,
    (C2_spec initGame true Direction.down initGame_Inv (by decide)
      (by decide)).2.1⟩

/-- C3: a move whose candidate cell is off the 7×7 grid, burned, or
occupied by either player's avitar is rejected with the whole game
state unchanged; the outcome tag reported is out-of-bounds first, then
burned, then occupied. -/
theorem C3_spec (g : Game) (who : Bool) (d : Direction) (hInv : g.Inv) :
    ((¬(0 ≤ (g.moveTarget who d).1 ∧ (g.moveTarget who d).1 < 7 ∧
        0 ≤ (g.moveTarget who d).2 ∧ (g.moveTarget who d).2 < 7) ∨
      g.board.getCell (g.moveTarget who d).1 (g.moveTarget who d).2 =
        some DEAD_CELL ∨
      g.board.getCell (g.moveTarget who d).1 (g.moveTarget who d).2 =
        some g.p1.avitar ∨
      g.board.getCell (g.moveTarget who d).1 (g.moveTarget who d).2 =
        some g.p2.avitar) →
      g.attemptMove who d = (false, g)) ∧
    (¬(0 ≤ (g.moveTarget who d).1 ∧ (g.moveTarget who d).1 < 7 ∧
        0 ≤ (g.moveTarget who d).2 ∧ (g.moveTarget who d).2 < 7) →
      g.moveOutcome who d = .outOfBounds) ∧
    ((0 ≤ (g.moveTarget who d).1 ∧ (g.moveTarget who d).1 < 7 ∧
        0 ≤ (g.moveTarget who d).2 ∧ (g.moveTarget who d).2 < 7) →
      g.board.getCell (g.moveTarget who d).1 (g.moveTarget who d).2 =
        some DEAD_CELL →
      g.moveOutcome who d = .burned) ∧
    ((0 ≤ (g.moveTarget who d).1 ∧ (g.moveTarget who d).1 < 7 ∧
        0 ≤ (g.moveTarget who d).2 ∧ (g.moveTarget who d).2 < 7) →
      g.board.getCell (g.moveTarget who d).1 (g.moveTarget who d).2 ≠
        some DEAD_CELL →
      (g.board.getCell (g.moveTarget who d).1 (g.moveTarget who d).2 =
        some g.p1.avitar ∨
       g.board.getCell (g.moveTarget who d).1 (g.moveTarget who d).2 =
        some g.p2.avitar) →
      g.moveOutcome who d = .occupied) := by
  have hrows : g.board.rows = 7 := hInv.1.1
  have hcols : g.board.cols = 7 := hInv.1.1
  have hOOB : ¬(0 ≤ (g.moveTarget who d).1 ∧ (g.moveTarget who d).1 < 7 ∧
      0 ≤ (g.moveTarget who d).2 ∧ (g.moveTarget who d).2 < 7) →
      g.moveOutcome who d = .outOfBounds := by
    intro hnb
    simp only [Game.moveOutcome]
    rw [if_pos (by omega)]
  have hBurn : (0 ≤ (g.moveTarget who d).1 ∧ (g.moveTarget who d).1 < 7 ∧
      0 ≤ (g.moveTarget who d).2 ∧ (g.moveTarget who d).2 < 7) →
      g.board.getCell (g.moveTarget who d).1 (g.moveTarget who d).2 =
        some DEAD_CELL →
      g.moveOutcome who d = .burned := by
    intro hbs hd
    simp only [Game.moveOutcome]
    rw [if_neg (by omega), if_pos hd]
  have hOcc : (0 ≤ (g.moveTarget who d).1 ∧ (g.moveTarget who d).1 < 7 ∧
      0 ≤ (g.moveTarget who d).2 ∧ (g.moveTarget who d).2 < 7) →
      g.board.getCell (g.moveTarget who d).1 (g.moveTarget who d).2 ≠
        some DEAD_CELL →
      (g.board.getCell (g.moveTarget who d).1 (g.moveTarget who d).2 =
        some g.p1.avitar ∨
       g.board.getCell (g.moveTarget who d).1 (g.moveTarget who d).2 =
        some g.p2.avitar) →
      g.moveOutcome who d = .occupied := by
    intro hbs hnd hocc
    simp only [Game.moveOutcome]
    rw [if_neg (by omega), if_neg hnd, if_pos hocc]
  refine ⟨?_, hOOB, hBurn, hOcc⟩
  intro hrej
  apply attemptMove_eq_of_reject
  by_cases hbs : 0 ≤ (g.moveTarget who d).1 ∧ (g.moveTarget who d).1 < 7 ∧
      0 ≤ (g.moveTarget who d).2 ∧ (g.moveTarget who d).2 < 7
  · rcases hrej with hnb | hd | ho | ho
    · exact absurd hbs hnb
    · rw [hBurn hbs hd]
      decide
    · by_cases hnd : g.board.getCell (g.moveTarget who d).1
          (g.moveTarget who d).2 = some DEAD_CELL
      · rw [hBurn hbs hnd]; decide
      · rw [hOcc hbs hnd (Or.inl ho)]; decide
    · by_cases hnd : g.board.getCell (g.moveTarget who d).1
          (g.moveTarget who d).2 = some DEAD_CELL
      · rw [hBurn hbs hnd]; decide
      · rw [hOcc hbs hnd (Or.inr ho)]; decide
  · rw [hOOB hbs]
    decide

theorem C3_witness :
    initGame.attemptMove true Direction.up = (false, initGame) :=
  (C3_spec initGame true Direction.up initGame_Inv).1 (Or.inl (by decide))

/-- C4: for an in-bounds arrow target (1-based from the caller,
converted to 0-based), the placement fails iff the target is not Empty
(board untouched on failure), succeeds iff the target is Empty, in
which case exactly that cell becomes Burned; a burned target always
makes the attempt fail. -/
theorem C4_spec (g : Game) (ir ic : Int) (hInv : g.Inv)
    (hb : 0 ≤ ir - 1 ∧ ir - 1 < 7 ∧ 0 ≤ ic - 1 ∧ ic - 1 < 7) :
    ((g.fireArrowAt ir ic).1 = false ↔
      g.board.getCell (ir - 1) (ic - 1) ≠ some EMPTY_SPOT) ∧
    ((g.fireArrowAt ir ic).1 = false → (g.fireArrowAt ir ic).2 = g) ∧
    (g.board.getCell (ir - 1) (ic - 1) = some EMPTY_SPOT →
      (g.fireArrowAt ir ic).1 = true ∧
      ((g.fireArrowAt ir ic).2).board.getCell (ir - 1) (ic - 1) =
        some DEAD_CELL ∧
      ∀ x y : Int, (x, y) ≠ (ir - 1, ic - 1) →
        ((g.fireArrowAt ir ic).2).board.getCell x y =
          g.board.getCell x y) ∧
    (g.board.getCell (ir - 1) (ic - 1) = some DEAD_CELL →
      (g.fireArrowAt ir ic).1 = false) := by
  have hrows : g.board.rows = 7 := hInv.1.1
  have hcols : g.board.cols = 7 := hInv.1.1
  have hoob : ¬(ir - 1 < 0 ∨ ir - 1 > (g.board.rows : Int) - 1 ∨
      ic - 1 < 0 ∨ ic - 1 > (g.board.cols : Int) - 1) := by omega
  by_cases he : g.board.getCell (ir - 1) (ic - 1) = some EMPTY_SPOT
  · have hfe : g.fireArrowAt ir ic = (true, { g with
        board := g.board.setCell (ir - 1) (ic - 1) DEAD_CELL }) := by
      simp only [Game.fireArrowAt]
      rw [if_neg hoob, if_neg (not_not_intro he)]
    obtain ⟨wfb2, htgt, hother, hcount⟩ :=
      board_arrow_step g.board hInv.1 (ir - 1) (ic - 1) he
    refine ⟨?_, ?_, ?_, ?_⟩
    · rw [hfe]
      simp [he]
    · rw [hfe]
      intro hcontra
      simp at hcontra
    · intro _
      refine ⟨by rw [hfe], ?_, ?_⟩
      · rw [hfe]; exact htgt
      · intro x y hxy
        rw [hfe]
        exact hother x y hxy
    · intro hd
      rw [he] at hd
      exact absurd (Option.some.injEq _ _ ▸ hd) (by decide)
  · have hfe : g.fireArrowAt ir ic = (false, g) := by
      simp only [Game.fireArrowAt]
      rw [if_neg hoob, if_pos he]
    refine ⟨?_, ?_, ?_, ?_⟩
    · rw [hfe]
      simp [he]
    · intro _
      rw [hfe]
    · intro hcontra
      exact absurd hcontra he
    · intro _
      rw [hfe]

theorem C4_witness :
    (0 ≤ (1 : Int) - 1 ∧ (1 : Int) - 1 < 7 ∧ 0 ≤ (1 : Int) - 1 ∧
      (1 : Int) - 1 < 7) ∧
    ((initGame.fireArrowAt 1 1).1 = false ↔
      initGame.board.getCell (1 - 1) (1 - 1) ≠ some EMPTY_SPOT) :=
  ⟨by decide, (C4_spec initGame 1 1 initGame_Inv (by decide)).1⟩

/-- C5: the claim (following the spec's defensive contract) says
`Board::getCell` fails with an `OutOfBounds` error on invalid
coordinates.  The source (isola.hpp lines 68-70) is an unchecked
`operator[]` read with no bounds check and no error path: out of range
it has undefined behaviour, so it cannot return the claimed error
result.  This theorem records the code's behaviour at the failing input
`getCell(7, 0)` on the game's 7×7 board: the access leaves the stored
grid and has no defined result at all (`none` in the embedding, which
marks the undefined access, not a reported error), while an in-bounds
read such as `getCell(0, 0)` does return the stored cell state — the
part of the claim the code satisfies. -/
theorem C5_code_eval :
    (mkBoard 7 7).getCell 7 0 = none ∧
    (mkBoard 7 7).getCell 0 0 = some EMPTY_SPOT := by
  decide

/-- C6: in every state reachable from the initial game by successful
moves and arrow placements, the cell holding `"B"` is exactly p1's
stored position, the cell holding `"W"` is exactly p2's stored
position, and every other cell is Empty or Burned. -/
theorem C6_spec (g : Game) (h : Reachable g) :
    g.board.getCell g.p1.row g.p1.col = some "B" ∧
    g.board.getCell g.p2.row g.p2.col = some "W" ∧
    ∀ r c s, g.board.getCell r c = some s →
      ((s = "B" ↔ (r, c) = (g.p1.row, g.p1.col)) ∧
       (s = "W" ↔ (r, c) = (g.p2.row, g.p2.col)) ∧
       (s ≠ "B" → s ≠ "W" → s = EMPTY_SPOT ∨ s = DEAD_CELL)) := by
  obtain ⟨wfb, ha1, ha2, hc1, hc2, hdist, hclass⟩ := Reachable_Inv g h
  refine ⟨hc1, hc2, ?_⟩
  intro r c s hs
  refine ⟨⟨?_, ?_⟩, ⟨?_, ?_⟩, ?_⟩
  · intro hsB
    by_contra hne1
    by_cases hne2 : (r, c) = (g.p2.row, g.p2.col)
    · rw [Prod.mk.injEq] at hne2
      rw [hne2.1, hne2.2, hc2] at hs
      have : "W" = s := Option.some.injEq _ _ ▸ hs
      rw [hsB] at this
      exact absurd this (by decide)
    · rcases hclass r c s hs hne1 hne2 with he | he <;>
        (rw [hsB] at he; exact absurd he (by decide))
  · intro heq
    rw [Prod.mk.injEq] at heq
    rw [heq.1, heq.2, hc1] at hs
    exact (Option.some.injEq _ _ ▸ hs).symm
  · intro hsW
    by_contra hne2
    by_cases hne1 : (r, c) = (g.p1.row, g.p1.col)
    · rw [Prod.mk.injEq] at hne1
      rw [hne1.1, hne1.2, hc1] at hs
      have : "B" = s := Option.some.injEq _ _ ▸ hs
      rw [hsW] at this
      exact absurd this (by decide)
    · rcases hclass r c s hs hne1 hne2 with he | he <;>
        (rw [hsW] at he; exact absurd he (by decide))
  · intro heq
    rw [Prod.mk.injEq] at heq
    rw [heq.1, heq.2, hc2] at hs
    exact (Option.some.injEq _ _ ▸ hs).symm
  · intro hnB hnW
    by_cases hne1 : (r, c) = (g.p1.row, g.p1.col)
    · rw [Prod.mk.injEq] at hne1
      rw [hne1.1, hne1.2, hc1] at hs
      exact absurd (Option.some.injEq _ _ ▸ hs).symm hnB
    · by_cases hne2 : (r, c) = (g.p2.row, g.p2.col)
      · rw [Prod.mk.injEq] at hne2
        rw [hne2.1, hne2.2, hc2] at hs
        exact absurd (Option.some.injEq _ _ ▸ hs).symm hnW
      · exact hclass r c s hs hne1 hne2

theorem C6_witness :
    initGame.board.getCell initGame.p1.row initGame.p1.col = some "B" ∧
    initGame.board.getCell initGame.p2.row initGame.p2.col = some "W" :=
  ⟨(C6_spec initGame Reachable.init).1, (C6_spec initGame Reachable.init).2.1⟩

/-- C7: a burned cell stays burned across any move attempt and any
arrow attempt, successful or rejected, in any game state. -/
theorem C7_spec (g : Game) (r c : Int)
    (h : g.board.getCell r c = some DEAD_CELL) :
    (∀ (who : Bool) (d : Direction),
      ((g.attemptMove who d).2).board.getCell r c = some DEAD_CELL) ∧
    (∀ ir ic : Int,
      ((g.fireArrowAt ir ic).2).board.getCell r c = some DEAD_CELL) := by
  constructor
  · intro who d
    by_cases hok : g.moveOutcome who d = .ok
    · rw [attemptMove_eq_of_ok g who d hok]
      show ((g.board.setCell (g.playerOf who).row (g.playerOf who).col
        DEAD_CELL).setCell (g.moveTarget who d).1 (g.moveTarget who d).2
        (g.playerOf who).avitar).getCell r c = some DEAD_CELL
      obtain ⟨hb0, hb1, hb2, hb3, hnd, _, _⟩ :=
        moveOutcome_ok_elim g who d hok
      have hrc_ne : (r, c) ≠
          ((g.moveTarget who d).1, (g.moveTarget who d).2) := by
        intro hh
        rw [Prod.mk.injEq] at hh
        rw [hh.1, hh.2] at h
        exact hnd h
      rw [Board.getCell_setCell_ne _ _ _ _ hb0 hb2 r c hrc_ne]
      rcases Board.getCell_setCell_cases g.board (g.playerOf who).row
        (g.playerOf who).col r c DEAD_CELL with hcase | hcase
      · rw [hcase]; exact h
      · exact hcase
    · rw [attemptMove_eq_of_reject g who d hok]
      exact h
  · intro ir ic
    simp only [Game.fireArrowAt]
    split_ifs with h1 h2
    · exact h
    · show (g.board.setCell (ir - 1) (ic - 1) DEAD_CELL).getCell r c =
        some DEAD_CELL
      rcases Board.getCell_setCell_cases g.board (ir - 1) (ic - 1) r c
        DEAD_CELL with hcase | hcase
      · rw [hcase]; exact h
      · exact hcase
    · exact h

theorem C7_witness :
    ((((initGame.attemptMove true Direction.down).2).fireArrowAt 3 3).2).board.getCell
      0 3 = some DEAD_CELL :=
  (C7_spec ((initGame.attemptMove true Direction.down).2) 0 3
    (by decide)).2 3 3

/-- C8: neither a move attempt nor an arrow attempt (successful or
rejected) changes which player is active; a completed move-plus-arrow
turn cycle flips the active player exactly once. -/
theorem C8_spec (g : Game) :
    (∀ (who : Bool) (d : Direction),
      ((g.attemptMove who d).2).activeIsP1 = g.activeIsP1) ∧
    (∀ ir ic : Int,
      ((g.fireArrowAt ir ic).2).activeIsP1 = g.activeIsP1) ∧
    (∀ (d : Direction) (ir ic : Int) (g2 : Game),
      g.turnCycle d ir ic = some g2 →
        g2.activeIsP1 = !g.activeIsP1) := by
  refine ⟨fun who d => attemptMove_active g who d,
    fun ir ic => fireArrowAt_active g ir ic, ?_⟩
  intro d ir ic g2 h
  simp only [Game.turnCycle] at h
  by_cases hguard : g.checkHasValidMove g.activeIsP1 = true
  · rw [if_pos hguard] at h
    cases hm : g.attemptMove g.activeIsP1 d with
    | mk okM gm =>
      rw [hm] at h
      dsimp only at h
      cases okM with
      | false => simp at h
      | true =>
        rw [if_pos rfl] at h
        cases ha : gm.fireArrowAt ir ic with
        | mk okA ga =>
          rw [ha] at h
          dsimp only at h
          cases okA with
          | false => simp at h
          | true =>
            rw [if_pos rfl] at h
            have hg2 : g2 = ga.flipActive :=
              (Option.some.injEq _ _ ▸ h).symm
            have e1 : gm.activeIsP1 = g.activeIsP1 := by
              have hgm : gm = (g.attemptMove g.activeIsP1 d).2 := by
                rw [hm]
              rw [hgm, attemptMove_active]
            have e2 : ga.activeIsP1 = gm.activeIsP1 := by
              have hga : ga = (gm.fireArrowAt ir ic).2 := by rw [ha]
              rw [hga, fireArrowAt_active]
            rw [hg2]
            show (!ga.activeIsP1) = !g.activeIsP1
            rw [e2, e1]
  · rw [if_neg hguard] at h
    simp at h

theorem C8_witness :
    ((initGame.turnCycle Direction.down 1 3).getD initGame).activeIsP1 =
      !initGame.activeIsP1 :=
  (C8_spec initGame).2.2 Direction.down 1 3
    ((initGame.turnCycle Direction.down 1 3).getD initGame) (by decide)

/-- C9: `Board::cols()` returns the stored row count: for a board
constructed with `r` rows and `c` columns it returns `r` (so it differs
from the column count whenever `r ≠ c`), while on the game's square
7×7 board both accessors return 7. -/
theorem C9_spec :
    (∀ r c : Nat, (mkBoard r c).cols = r) ∧
    (∀ r c : Nat, r ≠ c → (mkBoard r c).cols ≠ c) ∧
    initGame.board.rows = 7 ∧ initGame.board.cols = 7 := by
  refine ⟨fun r c => rfl, fun r c hne => ?_, rfl, rfl⟩
  show r ≠ c
  exact hne

theorem C9_witness :
    (mkBoard 4 6).cols = 4 ∧ (4 ≠ 6 ∧ (mkBoard 4 6).cols ≠ 6) ∧
      initGame.board.rows = 7 ∧ initGame.board.cols = 7 :=
  ⟨C9_spec.1 4 6, ⟨by decide, C9_spec.2.1 4 6 (by decide)⟩,
    C9_spec.2.2.1, C9_spec.2.2.2⟩

/-- C10 (counterexample to the claim's initial count): the initial 7×7
board has 47 Empty cells — 49 minus the two occupied starting cells —
not 45 as the claim states. -/
theorem C10_counterexample :
    initGame.board.countEmpty = 47 ∧ initGame.board.countEmpty ≠ 45 := by
  decide

/-- C10 (amended): every completed turn of the play loop removes
exactly two Empty cells, so after `n` completed turns from the initial
state (47 Empty cells) exactly `47 - 2n` Empty cells remain and at most
23 turns can ever complete. -/
theorem C10_spec (ms : List (Direction × Int × Int)) (g2 : Game)
    (h : initGame.turnSeq ms = some g2) :
    g2.board.countEmpty + 2 * ms.length = 47 ∧
    initGame.board.countEmpty = 47 ∧
    ms.length ≤ 23 := by
  obtain ⟨hInv2, hcount⟩ := turnSeq_spec ms initGame g2 initGame_Inv h
  have h47 : initGame.board.countEmpty = 47 := by decide
  exact ⟨by omega, h47, by omega⟩

theorem C10_witness :
    ((initGame.turnSeq [(Direction.down, 1, 3)]).getD initGame).board.countEmpty +
        2 * [(Direction.down, (1 : Int), (3 : Int))].length = 47 ∧
    initGame.board.countEmpty = 47 ∧
    [(Direction.down, (1 : Int), (3 : Int))].length ≤ 23 :=
  C10_spec [(Direction.down, 1, 3)]
    ((initGame.turnSeq [(Direction.down, 1, 3)]).getD initGame) (by decide)

end Isola
